import Mathlib

/-!
Verification of the schedule-matrix generation algorithm of the
ucsghorario repository.

The repository contains two variants of the allocator:

* `src/schedule.js` (`ScheduleManager.createScheduleMatrix`, the "strict"
  9-time-slot variant with an upfront capacity check), and
* `src/js/schedule.js` (`ScheduleManager.createScheduleMatrix`, the
  5-time-slot variant with only a per-subject pool check).

Both are embedded below.  The only source of nondeterminism in the source
is `shuffleArray` (a Fisher–Yates shuffle of the candidate-position list);
it is modelled by passing the already-shuffled pool as an explicit
argument and quantifying over all permutations of the candidate list.

The grid is a list of rows indexed `[time][day]`, exactly as in the
source (`schedule[i] = new Array(this.weekDays.length).fill(null)`).
Cell writes additionally maintain three instrumentation fields that do
not influence control flow or the grid contents:

* `overwrites` counts writes that replace a cell already holding a
  different subject (the "double-booking" events of the spec);
* `oob` counts grid reads/writes whose indices fall outside the
  `timeSlots × weekDays` rectangle (in JavaScript these would be the
  out-of-bounds accesses);
* `blocks` logs every consecutive two-slot placement `(position, subject)`.
-/

namespace Sched

/-- A subject record, as produced by the intake step of the source
(`{name, professor, credits, id}`). -/
structure Subject where
  id : Nat
  name : String
  professor : String
  credits : Nat
deriving DecidableEq

/-- A candidate or occupied cell `{day, time}`, as pushed by
`availableSlots.push({ day, time })` in the source. -/
structure Position where
  day : Nat
  time : Nat
deriving DecidableEq

/-- The schedule grid, indexed `[time][day]`; `none` is an unassigned cell. -/
abbrev Grid := List (List (Option Subject))

/-- The `this.timeSlots` list of the strict variant (src/schedule.js). -/
def timeSlots : List String :=
  ["07:00-09:00", "08:00-10:00", "09:00-11:00", "10:00-12:00", "11:00-13:00",
   "13:00-15:00", "14:00-16:00", "15:00-17:00", "16:00-18:00"]

/-- The `this.weekDays` list (identical in both variants). -/
def weekDays : List String :=
  ["Lunes", "Martes", "Miércoles", "Jueves", "Viernes"]

/-- The `this.timeSlots` list of the 5-slot variant (src/js/schedule.js). -/
def jsTimeSlots : List String :=
  ["07:00-09:00", "09:00-11:00", "11:00-13:00", "13:00-15:00", "15:00-17:00"]

/-- The `this.weekDays` list of the 5-slot variant. -/
def jsWeekDays : List String :=
  ["Lunes", "Martes", "Miércoles", "Jueves", "Viernes"]

/-- Read a grid cell `schedule[time][day]`; out-of-range indices read as
`none` (the embedding's stand-in for an absent cell). -/
def gridGet (g : Grid) (t d : Nat) : Option Subject :=
  (g.getD t []).getD d none

/-- Write a grid cell `schedule[time][day] = subject`; out-of-range
indices leave the grid unchanged. -/
def gridSet (g : Grid) (t d : Nat) (s : Subject) : Grid :=
  g.set t ((g.getD t []).set d (some s))

/-- The empty `timeSlots.length × weekDays.length` grid built by the
initialisation loop of `createScheduleMatrix` (strict variant). -/
def emptyGrid : Grid :=
  List.replicate timeSlots.length (List.replicate weekDays.length none)

/-- The empty grid of the 5-slot variant. -/
def jsEmptyGrid : Grid :=
  List.replicate jsTimeSlots.length (List.replicate jsWeekDays.length none)

/-- Slots needed per subject: `Math.max(1, Math.floor(subject.credits / 2))` (strict variant). -/
def slotsNeeded (s : Subject) : Nat :=
  max 1 (s.credits / 2)

/-- The required capacity named by the specification:
`Σ over subjects of slotsNeeded(subject)`.  (The strict source instead
checks against `subjects.length * 2`; this definition follows the spec's
words so the two can be compared.) -/
def requiredCapacity (subjects : List Subject) : Nat :=
  (subjects.map slotsNeeded).sum

/-- The candidate-position list built by the nested loops
`for (day = 0; day < weekDays.length; day++)`
`for (time = startIndex; time < timeSlots.length - 1; time++)`,
shared by both variants (each instantiates its own dimensions). -/
def candidatePositions (numDays numSlots startIndex : Nat) : List Position :=
  (List.range numDays).flatMap
    (fun day =>
      (List.range' startIndex (numSlots - 1 - startIndex)).map
        (fun time => { day := day, time := time }))

/-- The `availableSlots` list of the strict variant, before shuffling. -/
def availableSlots (startIndex : Nat) : List Position :=
  candidatePositions weekDays.length timeSlots.length startIndex

/-- The `availablePositions` list of the 5-slot variant, before shuffling. -/
def jsAvailablePositions (startIndex : Nat) : List Position :=
  candidatePositions jsWeekDays.length jsTimeSlots.length startIndex

/-- Errors thrown by the strict variant: the upfront capacity error
(carrying the required and available counts interpolated into its
message) and the per-subject error (carrying the subject's name). -/
inductive AllocError where
  | capacity (required available : Nat)
  | subjectCapacity (name : String)
deriving DecidableEq

/-- Execution state of the strict allocator: the grid, the remaining
shuffled pool, and the three instrumentation fields. -/
structure AllocState where
  grid : Grid
  pool : List Position
  overwrites : Nat
  oob : Nat
  blocks : List (Position × Subject)
deriving DecidableEq

/-- One grid write `schedule[t][d] = s` of the strict variant, with
instrumentation: `overwrites` increments when the cell already held a
different subject, `oob` when the indices are out of bounds. -/
def writeCell (st : AllocState) (t d : Nat) (s : Subject) : AllocState :=
  { st with
    grid := gridSet st.grid t d s
    overwrites := st.overwrites +
      (match gridGet st.grid t d with
       | none => 0
       | some s' => if s' = s then 0 else 1)
    oob := st.oob +
      (if t < timeSlots.length ∧ d < weekDays.length then 0 else 1) }

/-- Instrumentation for the read `schedule[position.time + 1][position.day]`
performed by the consecutive-slot guard. -/
def readOob (p : Position) : Nat :=
  if p.time + 1 < timeSlots.length ∧ p.day < weekDays.length then 0 else 1

/-- The consecutive two-slot placement of the strict variant: assign both
`(p.time, p.day)` and `(p.time + 1, p.day)` to `s`, then remove the
consumed adjacent slot from the pool
(`availableSlots.findIndex(... day === position.day && time === position.time + 1)`
followed by `splice`). -/
def blockPlace (s : Subject) (p : Position) (st : AllocState) : AllocState :=
  let st1 := writeCell (writeCell st p.time p.day s) (p.time + 1) p.day s
  { st1 with
    pool := st1.pool.eraseP (fun q => q.day == p.day && q.time == p.time + 1)
    blocks := (p, s) :: st1.blocks }

/-- One iteration of the inner loop
`for (let i = 0; i < slotsNeeded && availableSlots.length > 0; i++)`:
shift a position off the front of the pool and place either a
consecutive block (when the later adjacent slot exists and is still
`null`) or a single slot.  An empty pool leaves the state unchanged
(the loop guard fails). -/
def attemptStep (s : Subject) (st : AllocState) : AllocState :=
  match st.pool with
  | [] => st
  | p :: rest =>
    if p.time + 1 < timeSlots.length then
      if gridGet st.grid (p.time + 1) p.day = none then
        blockPlace s p { st with pool := rest, oob := st.oob + readOob p }
      else
        writeCell { st with pool := rest, oob := st.oob + readOob p } p.time p.day s
    else
      writeCell { st with pool := rest } p.time p.day s

/-- The inner loop run for `n = slotsNeeded` iterations. -/
def placeAttempts (s : Subject) : Nat → AllocState → AllocState
  | 0, st => st
  | n + 1, st => placeAttempts s n (attemptStep s st)

/-- The `subjects.forEach` loop of the strict variant: throw the
per-subject capacity error when the pool is exhausted at the start of a
subject's turn, otherwise run that subject's placement attempts. -/
def allocateSubjects : List Subject → AllocState → Except AllocError AllocState
  | [], st => .ok st
  | s :: rest, st =>
    if st.pool.length = 0 then
      .error (.subjectCapacity s.name)
    else
      allocateSubjects rest (placeAttempts s (slotsNeeded s) st)

/-- The error-free run of the `forEach` loop over a prefix of the
subjects (used to characterise where the per-subject error fires). -/
def foldPlace (subjects : List Subject) (st : AllocState) : AllocState :=
  subjects.foldl (fun acc s => placeAttempts s (slotsNeeded s) acc) st

/-- The method `createScheduleMatrix` of the strict variant (src/schedule.js,
lines 665-740).  `pool` is the candidate list after `shuffleArray`; the
upfront check compares its length (unchanged by the shuffle) against
`this.subjects.length * 2`. -/
def createScheduleMatrix (subjects : List Subject) (pool : List Position) :
    Except AllocError AllocState :=
  if pool.length < subjects.length * 2 then
    .error (.capacity (subjects.length * 2) pool.length)
  else
    allocateSubjects subjects
      { grid := emptyGrid, pool := pool, overwrites := 0, oob := 0, blocks := [] }

/-- Read one cell of a (possibly failed) allocation result. -/
def cellOf (r : Except AllocError AllocState) (t d : Nat) :
    Except AllocError (Option Subject) :=
  r.map (fun st => gridGet st.grid t d)

/-- Number of grid cells occupied by subject `s`. -/
def countCells (g : Grid) (s : Subject) : Nat :=
  (g.map (fun row => row.count (some s))).sum

/-- Execution state of the 5-slot variant (no bounds instrumentation is
needed for it; only the overwrite counter). -/
structure JsState where
  grid : Grid
  pool : List Position
  overwrites : Nat
deriving DecidableEq

/-- One grid write of the 5-slot variant, instrumented with the
overwrite counter. -/
def jsWriteCell (st : JsState) (t d : Nat) (s : Subject) : JsState :=
  { st with
    grid := gridSet st.grid t d s
    overwrites := st.overwrites +
      (match gridGet st.grid t d with
       | none => 0
       | some s' => if s' = s then 0 else 1) }

/-- Placement of one subject in the 5-slot variant: the popped position
receives a two-slot block whenever `position.time + 1 <
this.timeSlots.length` — with NO check that the second cell is still
`null` — and the adjacent slot is then removed from the pool; otherwise a
single slot is assigned. -/
def jsSubjectPlace (s : Subject) (p : Position) (st : JsState) : JsState :=
  if p.time + 1 < jsTimeSlots.length then
    let st1 := jsWriteCell (jsWriteCell st p.time p.day s) (p.time + 1) p.day s
    { st1 with
      pool := st1.pool.eraseP (fun q => q.day == p.day && q.time == p.time + 1) }
  else
    jsWriteCell st p.time p.day s

/-- The `subjects.forEach` loop of the 5-slot variant: throw when fewer
than two positions remain, otherwise `pop()` one position off the END of
the pool and place the subject there. -/
def jsAllocateSubjects : List Subject → JsState → Except String JsState
  | [], st => .ok st
  | s :: rest, st =>
    if h : st.pool.length < 2 then
      .error "No hay suficientes espacios disponibles"
    else
      jsAllocateSubjects rest
        (jsSubjectPlace s (st.pool.getLast (List.length_pos.mp (by omega)))
          { st with pool := st.pool.dropLast })

/-- The method `createScheduleMatrix` of the 5-slot variant (src/js/schedule.js,
lines 168-215); `pool` is the candidate list after `shuffleArray`. -/
def jsCreateScheduleMatrix (subjects : List Subject) (pool : List Position) :
    Except String JsState :=
  jsAllocateSubjects subjects { grid := jsEmptyGrid, pool := pool, overwrites := 0 }

/-- The fields of `ScheduleManager` that `createScheduleMatrix` can see
(self-state of the method call). -/
structure ManagerState where
  subjects : List Subject
  timeSlotLabels : List String
  weekDayLabels : List String
  currentScheduleData : Option Grid
deriving DecidableEq

/-- The strict variant's method as a state transformer on the manager
object: on success it stores the new grid in `this.currentScheduleData`
and returns it; on failure it rethrows, leaving the object unchanged.
No statement of the source assigns `this.subjects`, `this.timeSlots` or
`this.weekDays`. -/
def managerCreateScheduleMatrix (m : ManagerState) (pool : List Position) :
    Except AllocError Grid × ManagerState :=
  match createScheduleMatrix m.subjects pool with
  | .ok st => (.ok st.grid, { m with currentScheduleData := some st.grid })
  | .error e => (.error e, m)

/-! ### Basic list and grid lemmas -/

theorem getD_set_ne {α : Type} (l : List α) (d0 : α) {i j : Nat} (a : α) (h : i ≠ j) :
    (l.set i a).getD j d0 = l.getD j d0 := by
  simp [List.getD_eq_getElem?_getD, List.getElem?_set_ne h]

theorem getD_set_self {α : Type} (l : List α) {i : Nat} (a d0 : α) (h : i < l.length) :
    (l.set i a).getD i d0 = a := by
  simp [List.getD_eq_getElem?_getD, List.getElem?_set_self h]

theorem getD_of_length_le {α : Type} {l : List α} {i : Nat} (d0 : α) (h : l.length ≤ i) :
    l.getD i d0 = d0 := by
  induction l generalizing i with
  | nil => simp [List.getD]
  | cons x xs ih =>
    cases i with
    | zero => simp at h
    | succ i => rw [List.getD_cons_succ]; exact ih (by simpa using h)

theorem getD_replicate_of_lt {α : Type} {n i : Nat} (a d0 : α) (h : i < n) :
    (List.replicate n a).getD i d0 = a := by
  induction n generalizing i with
  | zero => omega
  | succ n ih =>
    cases i with
    | zero => rw [List.replicate_succ, List.getD_cons_zero]
    | succ i => rw [List.replicate_succ, List.getD_cons_succ]; exact ih (by omega)

theorem gridGet_gridSet_ne (g : Grid) {t d t' d' : Nat} (s : Subject)
    (h : t' ≠ t ∨ d' ≠ d) : gridGet (gridSet g t d s) t' d' = gridGet g t' d' := by
  unfold gridGet gridSet
  by_cases htt : t' = t
  · subst htt
    have hd : d' ≠ d := h.resolve_left (by simp)
    by_cases hl : t' < g.length
    · rw [getD_set_self _ _ _ hl, getD_set_ne _ _ _ (Ne.symm hd)]
    · rw [List.set_eq_of_length_le (Nat.le_of_not_lt hl)]
  · rw [getD_set_ne _ _ _ (Ne.symm htt)]

theorem gridGet_gridSet_self (g : Grid) {t d : Nat} (s : Subject)
    (ht : t < g.length) (hd : d < (g.getD t []).length) :
    gridGet (gridSet g t d s) t d = some s := by
  unfold gridGet gridSet
  rw [getD_set_self _ _ _ ht, getD_set_self _ _ _ (by simpa using hd)]

theorem gridGet_gridSet_same (g : Grid) (t d : Nat) (s : Subject) :
    gridGet (gridSet g t d s) t d =
      if t < g.length ∧ d < (g.getD t []).length then some s else gridGet g t d := by
  by_cases ht : t < g.length
  · by_cases hd : d < (g.getD t []).length
    · rw [if_pos ⟨ht, hd⟩]; exact gridGet_gridSet_self g s ht hd
    · rw [if_neg (by tauto)]
      unfold gridGet gridSet
      have hrow : (g.getD t []).set d (some s) = g.getD t [] :=
        List.set_eq_of_length_le (Nat.le_of_not_lt hd)
      rw [hrow, getD_set_self _ _ _ ht]
  · rw [if_neg (by tauto)]
    unfold gridGet gridSet
    rw [List.set_eq_of_length_le (Nat.le_of_not_lt ht)]

theorem gridGet_gridSet_preserve_some {g : Grid} {t d t0 d0 : Nat} {s x : Subject}
    (hfree : gridGet g t0 d0 = none) (hx : gridGet g t d = some x) :
    gridGet (gridSet g t0 d0 s) t d = some x := by
  have hne : t ≠ t0 ∨ d ≠ d0 := by
    by_contra hcon
    push_neg at hcon
    rw [hcon.1, hcon.2, hfree] at hx
    exact Option.noConfusion hx
  rw [gridGet_gridSet_ne _ _ hne]; exact hx

theorem gridGet_replicate_none (n m t d : Nat) :
    gridGet (List.replicate n (List.replicate m (none : Option Subject))) t d = none := by
  unfold gridGet
  by_cases ht : t < n
  · rw [getD_replicate_of_lt _ _ ht]
    by_cases hd : d < m
    · rw [getD_replicate_of_lt _ _ hd]
    · rw [getD_of_length_le _ (by simpa using Nat.le_of_not_lt hd)]
  · have h1 : (List.replicate n (List.replicate m (none : Option Subject))).getD t [] = [] :=
      getD_of_length_le _ (by simpa using Nat.le_of_not_lt ht)
    rw [h1]
    simp [List.getD]

theorem gridGet_emptyGrid (t d : Nat) : gridGet emptyGrid t d = none :=
  gridGet_replicate_none _ _ t d

theorem gridGet_jsEmptyGrid (t d : Nat) : gridGet jsEmptyGrid t d = none :=
  gridGet_replicate_none _ _ t d

/-- The grid keeps the `timeSlots.length × weekDays.length` shape built by
the initialisation loop. -/
def GridShape (g : Grid) : Prop :=
  g.length = timeSlots.length ∧
  ∀ t, t < timeSlots.length → (g.getD t []).length = weekDays.length

theorem gridShape_empty : GridShape emptyGrid := by
  constructor
  · simp [emptyGrid]
  · intro t ht
    unfold emptyGrid
    rw [getD_replicate_of_lt _ _ ht]
    simp

theorem gridShape_gridSet {g : Grid} (hs : GridShape g) (t d : Nat) (s : Subject) :
    GridShape (gridSet g t d s) := by
  obtain ⟨h1, h2⟩ := hs
  constructor
  · simpa [gridSet] using h1
  · intro t' ht'
    by_cases htt : t' = t
    · subst htt
      by_cases hl : t' < g.length
      · unfold gridSet
        rw [getD_set_self _ _ _ hl, List.length_set]
        exact h2 t' ht'
      · unfold gridSet
        rw [List.set_eq_of_length_le (Nat.le_of_not_lt hl)]
        exact h2 t' ht'
    · unfold gridSet
      rw [getD_set_ne _ _ _ (Ne.symm htt)]
      exact h2 t' ht'

/-! ### Candidate-position set -/

theorem mem_candidatePositions {D T i : Nat} {p : Position} :
    p ∈ candidatePositions D T i ↔ p.day < D ∧ i ≤ p.time ∧ p.time + 1 < T := by
  unfold candidatePositions
  simp only [List.mem_flatMap, List.mem_range, List.mem_map, List.mem_range'_1]
  constructor
  · rintro ⟨day, hday, time, ⟨h1, h2⟩, rfl⟩
    refine ⟨hday, h1, ?_⟩
    show time + 1 < T
    omega
  · rintro ⟨hd, h1, h2⟩
    exact ⟨p.day, hd, p.time, ⟨h1, by omega⟩, rfl⟩

theorem nodup_candidatePositions (D T i : Nat) : (candidatePositions D T i).Nodup := by
  unfold candidatePositions
  rw [List.nodup_flatMap]
  constructor
  · intro day _
    refine List.Nodup.map ?_ (List.nodup_range' _ _)
    intro a b hab
    simpa using hab
  · refine List.Pairwise.imp ?_ (List.pairwise_lt_range _)
    intro a b hab x hxa hxb
    simp only [List.mem_map] at hxa hxb
    obtain ⟨ta, -, rfl⟩ := hxa
    obtain ⟨tb, -, hEq⟩ := hxb
    have : b = a := congrArg Position.day hEq
    omega

/-! ### The eraseP of the consumed adjacent slot -/

theorem ne_of_mem_eraseP_nodup (l : List Position) (c : Position) (hN : l.Nodup) :
    ∀ q ∈ l.eraseP (fun q => q.day == c.day && q.time == c.time), q ≠ c := by
  induction l with
  | nil => simp
  | cons x xs ih =>
    intro q hq
    rw [List.eraseP_cons] at hq
    cases hx : (x.day == c.day && x.time == c.time) with
    | true =>
      rw [hx, cond_true] at hq
      have hxc : x = c := by
        obtain ⟨hd, ht⟩ := (Bool.and_eq_true _ _).mp hx
        obtain ⟨a, b⟩ := x
        obtain ⟨a', b'⟩ := c
        simp only [beq_iff_eq] at hd ht
        simp [hd, ht]
      intro hqc
      subst hqc
      refine (List.nodup_cons.mp hN).1 ?_
      rw [hxc]
      exact hq
    | false =>
      rw [hx, cond_false] at hq
      rcases List.mem_cons.mp hq with hq | hq
      · subst hq
        intro hqc
        subst hqc
        simp at hx
      · exact ih (List.nodup_cons.mp hN).2 q hq

theorem position_ne_compat {q p : Position} (h : q ≠ p) :
    q.time ≠ p.time ∨ q.day ≠ p.day := by
  by_contra hcon
  push_neg at hcon
  refine h ?_
  obtain ⟨a, b⟩ := q
  obtain ⟨c, d⟩ := p
  simp_all

/-! ### The allocation invariant of the strict variant -/

/-- Positions still in the pool are pairwise distinct, in range
(`lo` is the start index, and a block starting there fits below the last
row), and point at a still-unassigned cell. -/
def PoolOK (lo : Nat) (g : Grid) (pool : List Position) : Prop :=
  pool.Nodup ∧
  ∀ p ∈ pool, p.day < weekDays.length ∧ lo ≤ p.time ∧
    p.time + 1 < timeSlots.length ∧ gridGet g p.time p.day = none

/-- Every logged block placement occupies its two same-day adjacent cells. -/
def BlocksPlaced (g : Grid) (blocks : List (Position × Subject)) : Prop :=
  ∀ pr ∈ blocks, gridGet g pr.1.time pr.1.day = some pr.2 ∧
    gridGet g (pr.1.time + 1) pr.1.day = some pr.2

/-- The run invariant of the strict allocator. -/
def Inv (lo : Nat) (st : AllocState) : Prop :=
  GridShape st.grid ∧ PoolOK lo st.grid st.pool ∧ BlocksPlaced st.grid st.blocks

theorem inv_init (startIndex : Nat) (pool : List Position)
    (hperm : pool.Perm (availableSlots startIndex)) :
    Inv startIndex
      { grid := emptyGrid, pool := pool, overwrites := 0, oob := 0, blocks := [] } := by
  refine ⟨gridShape_empty, ⟨?_, ?_⟩, ?_⟩
  · exact hperm.nodup_iff.mpr (nodup_candidatePositions _ _ _)
  · intro p hp
    have hmem := mem_candidatePositions.mp (hperm.mem_iff.mp hp)
    exact ⟨hmem.1, hmem.2.1, hmem.2.2, gridGet_emptyGrid _ _⟩
  · intro pr hpr
    exact absurd hpr (List.not_mem_nil pr)

theorem attemptStep_of_nil {st : AllocState} (s : Subject) (hp : st.pool = []) :
    attemptStep s st = st := by
  unfold attemptStep
  rw [hp]

theorem attemptStep_of_cons {st : AllocState} (s : Subject) {p : Position}
    {rest : List Position} (hp : st.pool = p :: rest) :
    attemptStep s st =
      if p.time + 1 < timeSlots.length then
        if gridGet st.grid (p.time + 1) p.day = none then
          blockPlace s p { st with pool := rest, oob := st.oob + readOob p }
        else
          writeCell { st with pool := rest, oob := st.oob + readOob p } p.time p.day s
      else
        writeCell { st with pool := rest } p.time p.day s := by
  unfold attemptStep
  rw [hp]

theorem attemptStep_spec {lo : Nat} (s : Subject) (st : AllocState) (h : Inv lo st) :
    Inv lo (attemptStep s st) ∧
    (attemptStep s st).overwrites = st.overwrites ∧
    (attemptStep s st).oob = st.oob ∧
    (∀ t d x, gridGet st.grid t d = some x →
      gridGet (attemptStep s st).grid t d = some x) ∧
    (∀ t d, t < lo → gridGet (attemptStep s st).grid t d = gridGet st.grid t d) ∧
    (∀ b ∈ st.blocks, b ∈ (attemptStep s st).blocks) := by
  obtain ⟨hShape, ⟨hNodup, hPool⟩, hBlocks⟩ := h
  cases hp : st.pool with
  | nil =>
    rw [attemptStep_of_nil s hp]
    refine ⟨⟨hShape, ⟨hNodup, hPool⟩, hBlocks⟩, rfl, rfl, fun t d x hx => hx,
      fun t d _ => rfl, fun b hb => hb⟩
  | cons p rest =>
    have hpmem : p ∈ st.pool := by rw [hp]; exact List.mem_cons_self p rest
    obtain ⟨hpd, hplo, hpt, hpfree⟩ := hPool p hpmem
    have hrestN : rest.Nodup := by
      rw [hp] at hNodup; exact (List.nodup_cons.mp hNodup).2
    have hpnotin : p ∉ rest := by
      rw [hp] at hNodup; exact (List.nodup_cons.mp hNodup).1
    have hread : readOob p = 0 := by
      simp [readOob, hpt, hpd]
    have hbase : gridGet (gridSet st.grid p.time p.day s) p.time p.day = some s :=
      gridGet_gridSet_self _ _ (by rw [hShape.1]; omega)
        (by rw [hShape.2 p.time (by omega)]; exact hpd)
    rw [attemptStep_of_cons s hp, if_pos hpt]
    by_cases hc : gridGet st.grid (p.time + 1) p.day = none
    · rw [if_pos hc]
      have hfree1 : gridGet (gridSet st.grid p.time p.day s) (p.time + 1) p.day = none := by
        rw [gridGet_gridSet_ne _ _ (Or.inl (by omega))]; exact hc
      have hnext : gridGet
          (gridSet (gridSet st.grid p.time p.day s) (p.time + 1) p.day s)
          (p.time + 1) p.day = some s := by
        have hsh1 := gridShape_gridSet hShape p.time p.day s
        exact gridGet_gridSet_self _ _ (by rw [hsh1.1]; omega)
          (by rw [hsh1.2 (p.time + 1) hpt]; exact hpd)
      have hbase2 : gridGet
          (gridSet (gridSet st.grid p.time p.day s) (p.time + 1) p.day s)
          p.time p.day = some s := by
        rw [gridGet_gridSet_ne _ _ (Or.inl (by omega))]; exact hbase
      refine ⟨⟨?_, ⟨?_, ?_⟩, ?_⟩, ?_, ?_, ?_, ?_, ?_⟩
      · -- shape
        simp only [blockPlace, writeCell]
        exact gridShape_gridSet (gridShape_gridSet hShape _ _ _) _ _ _
      · -- nodup of the reduced pool
        simp only [blockPlace, writeCell]
        exact ((List.eraseP_sublist rest).nodup hrestN)
      · -- remaining pool positions still free and in range
        simp only [blockPlace, writeCell]
        intro q hq
        have hqrest : q ∈ rest := (List.eraseP_sublist rest).subset hq
        obtain ⟨hqd, hqlo, hqt, hqfree⟩ := hPool q (by rw [hp]; exact List.mem_cons_of_mem p hqrest)
        refine ⟨hqd, hqlo, hqt, ?_⟩
        have hqp : q ≠ p := fun hEq => hpnotin (hEq ▸ hqrest)
        have hqnext : q ≠ ⟨p.day, p.time + 1⟩ :=
          ne_of_mem_eraseP_nodup rest ⟨p.day, p.time + 1⟩ hrestN q hq
        rw [gridGet_gridSet_ne _ _ (position_ne_compat hqnext),
          gridGet_gridSet_ne _ _ (position_ne_compat hqp)]
        exact hqfree
      · -- blocks all placed
        simp only [blockPlace, writeCell]
        intro pr hpr
        rcases List.mem_cons.mp hpr with hpr | hpr
        · subst hpr
          exact ⟨hbase2, hnext⟩
        · obtain ⟨hb1, hb2⟩ := hBlocks pr hpr
          exact ⟨gridGet_gridSet_preserve_some hfree1 (gridGet_gridSet_preserve_some hpfree hb1),
            gridGet_gridSet_preserve_some hfree1 (gridGet_gridSet_preserve_some hpfree hb2)⟩
      · -- overwrite counter unchanged
        simp only [blockPlace, writeCell, hpfree, hfree1, hread]
        omega
      · -- oob counter unchanged
        simp only [blockPlace, writeCell, hread]
        rw [if_pos ⟨by omega, hpd⟩, if_pos ⟨hpt, hpd⟩]
        omega
      · -- occupied cells keep their subject
        intro t d x hx
        simp only [blockPlace, writeCell]
        exact gridGet_gridSet_preserve_some hfree1 (gridGet_gridSet_preserve_some hpfree hx)
      · -- cells before the start index untouched
        intro t d ht
        simp only [blockPlace, writeCell]
        rw [gridGet_gridSet_ne _ _ (Or.inl (by omega)),
          gridGet_gridSet_ne _ _ (Or.inl (by omega))]
      · -- blocks only grow
        intro b hb
        simp only [blockPlace, writeCell]
        exact List.mem_cons_of_mem _ hb
    · rw [if_neg hc]
      refine ⟨⟨?_, ⟨?_, ?_⟩, ?_⟩, ?_, ?_, ?_, ?_, ?_⟩
      · simp only [writeCell]
        exact gridShape_gridSet hShape _ _ _
      · simp only [writeCell]
        exact hrestN
      · simp only [writeCell]
        intro q hq
        obtain ⟨hqd, hqlo, hqt, hqfree⟩ := hPool q (by rw [hp]; exact List.mem_cons_of_mem p hq)
        refine ⟨hqd, hqlo, hqt, ?_⟩
        have hqp : q ≠ p := fun hEq => hpnotin (hEq ▸ hq)
        rw [gridGet_gridSet_ne _ _ (position_ne_compat hqp)]
        exact hqfree
      · simp only [writeCell]
        intro pr hpr
        obtain ⟨hb1, hb2⟩ := hBlocks pr hpr
        exact ⟨gridGet_gridSet_preserve_some hpfree hb1,
          gridGet_gridSet_preserve_some hpfree hb2⟩
      · simp only [writeCell, hpfree, hread]
        omega
      · simp only [writeCell, hread]
        rw [if_pos ⟨by omega, hpd⟩]
        omega
      · intro t d x hx
        simp only [writeCell]
        exact gridGet_gridSet_preserve_some hpfree hx
      · intro t d ht
        simp only [writeCell]
        rw [gridGet_gridSet_ne _ _ (Or.inl (by omega))]
      · intro b hb
        simp only [writeCell]
        exact hb

theorem placeAttempts_spec {lo : Nat} (s : Subject) (n : Nat) (st : AllocState)
    (h : Inv lo st) :
    Inv lo (placeAttempts s n st) ∧
    (placeAttempts s n st).overwrites = st.overwrites ∧
    (placeAttempts s n st).oob = st.oob ∧
    (∀ t d x, gridGet st.grid t d = some x →
      gridGet (placeAttempts s n st).grid t d = some x) ∧
    (∀ t d, t < lo → gridGet (placeAttempts s n st).grid t d = gridGet st.grid t d) ∧
    (∀ b ∈ st.blocks, b ∈ (placeAttempts s n st).blocks) := by
  induction n generalizing st with
  | zero =>
    exact ⟨h, rfl, rfl, fun t d x hx => hx, fun t d _ => rfl, fun b hb => hb⟩
  | succ n ih =>
    obtain ⟨h1, h2, h3, h4, h5, h6⟩ := attemptStep_spec s st h
    obtain ⟨g1, g2, g3, g4, g5, g6⟩ := ih (attemptStep s st) h1
    simp only [placeAttempts]
    exact ⟨g1, by rw [g2, h2], by rw [g3, h3],
      fun t d x hx => g4 t d x (h4 t d x hx),
      fun t d ht => by rw [g5 t d ht, h5 t d ht],
      fun b hb => g6 b (h6 b hb)⟩

theorem allocateSubjects_spec {lo : Nat} :
    ∀ (subjects : List Subject) (st st' : AllocState), Inv lo st →
      allocateSubjects subjects st = .ok st' →
      Inv lo st' ∧ st'.overwrites = st.overwrites ∧ st'.oob = st.oob ∧
      (∀ t d x, gridGet st.grid t d = some x → gridGet st'.grid t d = some x) ∧
      (∀ t d, t < lo → gridGet st'.grid t d = gridGet st.grid t d) := by
  intro subjects
  induction subjects with
  | nil =>
    intro st st' h hok
    unfold allocateSubjects at hok
    injection hok with hok
    subst hok
    exact ⟨h, rfl, rfl, fun t d x hx => hx, fun t d _ => rfl⟩
  | cons s rest ih =>
    intro st st' h hok
    unfold allocateSubjects at hok
    by_cases hp : st.pool.length = 0
    · rw [if_pos hp] at hok
      exact Except.noConfusion hok
    · rw [if_neg hp] at hok
      obtain ⟨p1, p2, p3, p4, p5, -⟩ := placeAttempts_spec s (slotsNeeded s) st h
      obtain ⟨q1, q2, q3, q4, q5⟩ := ih _ st' p1 hok
      exact ⟨q1, by rw [q2, p2], by rw [q3, p3],
        fun t d x hx => q4 t d x (p4 t d x hx),
        fun t d ht => by rw [q5 t d ht, p5 t d ht]⟩

theorem attemptStep_writes_head {lo : Nat} (s : Subject) (st : AllocState)
    {p : Position} {rest : List Position} (h : Inv lo st) (hp : st.pool = p :: rest) :
    gridGet (attemptStep s st).grid p.time p.day = some s := by
  obtain ⟨hShape, ⟨hNodup, hPool⟩, hBlocks⟩ := h
  obtain ⟨hpd, hplo, hpt, hpfree⟩ := hPool p (by rw [hp]; exact List.mem_cons_self p rest)
  have hbase : gridGet (gridSet st.grid p.time p.day s) p.time p.day = some s :=
    gridGet_gridSet_self _ _ (by rw [hShape.1]; omega)
      (by rw [hShape.2 p.time (by omega)]; exact hpd)
  rw [attemptStep_of_cons s hp, if_pos hpt]
  by_cases hc : gridGet st.grid (p.time + 1) p.day = none
  · rw [if_pos hc]
    simp only [blockPlace, writeCell]
    rw [gridGet_gridSet_ne _ _ (Or.inl (by omega))]
    exact hbase
  · rw [if_neg hc]
    simp only [writeCell]
    exact hbase

theorem allocateSubjects_covers {lo : Nat} :
    ∀ (subjects : List Subject) (st st' : AllocState), Inv lo st →
      allocateSubjects subjects st = .ok st' →
      ∀ s ∈ subjects, ∃ t d, t < timeSlots.length ∧ d < weekDays.length ∧
        gridGet st'.grid t d = some s := by
  intro subjects
  induction subjects with
  | nil =>
    intro st st' h hok s hs
    exact absurd hs (List.not_mem_nil s)
  | cons s0 rest ih =>
    intro st st' h hok s hs
    unfold allocateSubjects at hok
    by_cases hp : st.pool.length = 0
    · rw [if_pos hp] at hok
      exact Except.noConfusion hok
    · rw [if_neg hp] at hok
      rcases List.mem_cons.mp hs with hs | hs
      · subst hs
        cases hpool : st.pool with
        | nil => rw [hpool] at hp; simp at hp
        | cons p rest' =>
          obtain ⟨hpd, hplo, hpt, -⟩ :=
            h.2.1.2 p (by rw [hpool]; exact List.mem_cons_self p rest')
          have hone : 1 ≤ slotsNeeded s := by
            unfold slotsNeeded; exact Nat.le_max_left _ _
          obtain ⟨m, hm⟩ : ∃ m, slotsNeeded s = m + 1 :=
            ⟨slotsNeeded s - 1, by omega⟩
          have hcell : gridGet (attemptStep s st).grid p.time p.day = some s :=
            attemptStep_writes_head s st ⟨h.1, h.2.1, h.2.2⟩ hpool
          have hInv1 := (attemptStep_spec s st h).1
          have hAfter := placeAttempts_spec s m (attemptStep s st) hInv1
          have hcell2 : gridGet (placeAttempts s (slotsNeeded s) st).grid
              p.time p.day = some s := by
            rw [hm]
            simp only [placeAttempts]
            exact hAfter.2.2.2.1 p.time p.day s hcell
          have hspec2 := allocateSubjects_spec rest
            (placeAttempts s (slotsNeeded s) st) st'
            (placeAttempts_spec s (slotsNeeded s) st h).1 hok
          exact ⟨p.time, p.day, by omega, hpd,
            hspec2.2.2.2.1 p.time p.day s hcell2⟩
      · exact ih _ st' (placeAttempts_spec s0 (slotsNeeded s0) st h).1 hok s hs

/-! ### Cell-counting lemmas -/

theorem countCells_nil (s : Subject) : countCells [] s = 0 := rfl

theorem countCells_cons (r : List (Option Subject)) (g : Grid) (s : Subject) :
    countCells (r :: g) s = r.count (some s) + countCells g s := by
  unfold countCells
  simp

theorem countCells_emptyGrid (s : Subject) : countCells emptyGrid s = 0 := by
  unfold countCells emptyGrid
  simp [List.map_replicate, List.count_replicate, List.sum_replicate]

theorem count_set_le {α : Type} [BEq α] (l : List α) (i : Nat) (a x : α) :
    (l.set i a).count x ≤ l.count x + 1 := by
  induction l generalizing i with
  | nil => simp
  | cons b l ih =>
    cases i with
    | zero =>
      rw [List.set_cons_zero, List.count_cons, List.count_cons]
      have hl : l.count x ≤ l.count x := le_refl _
      split_ifs <;> omega
    | succ i =>
      rw [List.set_cons_succ, List.count_cons, List.count_cons]
      have := ih i
      split_ifs <;> omega

theorem countCells_gridSet_le (g : Grid) (t d : Nat) (sw s : Subject) :
    countCells (gridSet g t d sw) s ≤ countCells g s + 1 := by
  induction g generalizing t with
  | nil => simp [gridSet, countCells_nil]
  | cons r g ih =>
    cases t with
    | zero =>
      unfold gridSet
      rw [List.getD_cons_zero, List.set_cons_zero, countCells_cons, countCells_cons]
      have := count_set_le r d (some sw) (some s)
      omega
    | succ t =>
      unfold gridSet
      rw [List.getD_cons_succ, List.set_cons_succ, countCells_cons, countCells_cons]
      have := ih t
      unfold gridSet at this
      omega

theorem one_le_count_of_getD {l : List (Option Subject)} {d : Nat} {s : Subject}
    (h : l.getD d none = some s) : 1 ≤ l.count (some s) := by
  induction l generalizing d with
  | nil =>
    rw [getD_of_length_le _ (by simp)] at h
    exact Option.noConfusion h
  | cons x l ih =>
    cases d with
    | zero =>
      rw [List.getD_cons_zero] at h
      subst h
      simp [List.count_cons]
    | succ d =>
      rw [List.getD_cons_succ] at h
      have := ih h
      rw [List.count_cons]
      omega

theorem two_le_count_of_getD_two {l : List (Option Subject)} {d1 d2 : Nat} {s : Subject}
    (h1 : l.getD d1 none = some s) (h2 : l.getD d2 none = some s) (hne : d1 ≠ d2) :
    2 ≤ l.count (some s) := by
  induction l generalizing d1 d2 with
  | nil =>
    rw [getD_of_length_le _ (by simp)] at h1
    exact Option.noConfusion h1
  | cons x l ih =>
    rw [List.count_cons]
    cases d1 with
    | zero =>
      cases d2 with
      | zero => exact absurd rfl hne
      | succ d2 =>
        rw [List.getD_cons_zero] at h1
        rw [List.getD_cons_succ] at h2
        have := one_le_count_of_getD h2
        subst h1
        simp only [beq_self_eq_true, if_pos]
        omega
    | succ d1 =>
      cases d2 with
      | zero =>
        rw [List.getD_cons_succ] at h1
        rw [List.getD_cons_zero] at h2
        have := one_le_count_of_getD h1
        subst h2
        simp only [beq_self_eq_true, if_pos]
        omega
      | succ d2 =>
        rw [List.getD_cons_succ] at h1 h2
        have := ih h1 h2 (by omega)
        omega

theorem row_count_le_countCells (g : Grid) (t : Nat) (s : Subject) :
    (g.getD t []).count (some s) ≤ countCells g s := by
  induction g generalizing t with
  | nil =>
    rw [getD_of_length_le _ (by simp)]
    simp [countCells_nil]
  | cons r g ih =>
    cases t with
    | zero =>
      rw [List.getD_cons_zero, countCells_cons]
      omega
    | succ t =>
      rw [List.getD_cons_succ, countCells_cons]
      have := ih t
      omega

theorem two_le_countCells_two_rows {g : Grid} {t1 t2 : Nat} {s : Subject}
    (h1 : 1 ≤ (g.getD t1 []).count (some s)) (h2 : 1 ≤ (g.getD t2 []).count (some s))
    (hne : t1 ≠ t2) : 2 ≤ countCells g s := by
  induction g generalizing t1 t2 with
  | nil =>
    rw [getD_of_length_le _ (by simp)] at h1
    simp at h1
  | cons r g ih =>
    rw [countCells_cons]
    cases t1 with
    | zero =>
      cases t2 with
      | zero => exact absurd rfl hne
      | succ t2 =>
        rw [List.getD_cons_zero] at h1
        rw [List.getD_cons_succ] at h2
        have := row_count_le_countCells g t2 s
        omega
    | succ t1 =>
      cases t2 with
      | zero =>
        rw [List.getD_cons_succ] at h1
        rw [List.getD_cons_zero] at h2
        have := row_count_le_countCells g t1 s
        omega
      | succ t2 =>
        rw [List.getD_cons_succ] at h1 h2
        have := ih h1 h2 (by omega)
        omega

theorem two_le_countCells_pair {g : Grid} {t1 d1 t2 d2 : Nat} {s : Subject}
    (h1 : gridGet g t1 d1 = some s) (h2 : gridGet g t2 d2 = some s)
    (hne : t1 ≠ t2 ∨ d1 ≠ d2) : 2 ≤ countCells g s := by
  by_cases htt : t1 = t2
  · subst htt
    have hd : d1 ≠ d2 := hne.resolve_left (by simp)
    exact le_trans (two_le_count_of_getD_two h1 h2 hd) (row_count_le_countCells g t1 s)
  · exact two_le_countCells_two_rows (one_le_count_of_getD h1) (one_le_count_of_getD h2) htt

theorem countCells_attemptStep_le (s : Subject) (st : AllocState) (sx : Subject) :
    countCells (attemptStep s st).grid sx ≤ countCells st.grid sx + 2 := by
  cases hp : st.pool with
  | nil =>
    rw [attemptStep_of_nil s hp]
    omega
  | cons p rest =>
    rw [attemptStep_of_cons s hp]
    by_cases hpt : p.time + 1 < timeSlots.length
    · rw [if_pos hpt]
      by_cases hc : gridGet st.grid (p.time + 1) p.day = none
      · rw [if_pos hc]
        simp only [blockPlace, writeCell]
        have ha := countCells_gridSet_le st.grid p.time p.day s sx
        have hb := countCells_gridSet_le (gridSet st.grid p.time p.day s)
          (p.time + 1) p.day s sx
        omega
      · rw [if_neg hc]
        simp only [writeCell]
        have := countCells_gridSet_le st.grid p.time p.day s sx
        omega
    · rw [if_neg hpt]
      simp only [writeCell]
      have := countCells_gridSet_le st.grid p.time p.day s sx
      omega

/-! ### Where the per-subject error fires (strict variant) -/

theorem allocateSubjects_error_name :
    ∀ (subjects : List Subject) (st : AllocState) (nm : String),
      allocateSubjects subjects st = .error (.subjectCapacity nm) →
      ∃ pre s post, subjects = pre ++ s :: post ∧ nm = s.name ∧
        (foldPlace pre st).pool = [] := by
  intro subjects
  induction subjects with
  | nil =>
    intro st nm h
    unfold allocateSubjects at h
    exact Except.noConfusion h
  | cons s0 rest ih =>
    intro st nm h
    unfold allocateSubjects at h
    by_cases hp : st.pool.length = 0
    · rw [if_pos hp] at h
      injection h with h
      injection h with h
      refine ⟨[], s0, rest, rfl, h.symm, ?_⟩
      simpa [foldPlace] using List.length_eq_zero.mp hp
    · rw [if_neg hp] at h
      obtain ⟨pre, s, post, heq, hnm, hpool⟩ := ih _ nm h
      refine ⟨s0 :: pre, s, post, by rw [heq]; rfl, hnm, ?_⟩
      simpa [foldPlace, List.foldl_cons] using hpool

theorem allocateSubjects_error_of_empty :
    ∀ (subjects : List Subject) (st : AllocState),
      (∃ pre s post, subjects = pre ++ s :: post ∧ (foldPlace pre st).pool = []) →
      ∃ nm, allocateSubjects subjects st = .error (.subjectCapacity nm) := by
  intro subjects
  induction subjects with
  | nil =>
    rintro st ⟨pre, s, post, heq, -⟩
    exact absurd heq (by simp)
  | cons s0 rest ih =>
    rintro st ⟨pre, s, post, heq, hpool⟩
    by_cases hp : st.pool.length = 0
    · exact ⟨s0.name, by unfold allocateSubjects; rw [if_pos hp]⟩
    · cases pre with
      | nil =>
        simp only [foldPlace, List.foldl_nil] at hpool
        rw [hpool] at hp
        simp at hp
      | cons q pre2 =>
        have hq : q = s0 := (List.cons.injEq q (pre2 ++ s :: post) s0 rest).mp heq.symm |>.1
        have hrest : rest = pre2 ++ s :: post :=
          ((List.cons.injEq q (pre2 ++ s :: post) s0 rest).mp heq.symm |>.2).symm
        obtain ⟨nm, hnm⟩ := ih (placeAttempts s0 (slotsNeeded s0) st)
          ⟨pre2, s, post, hrest, by
            have : foldPlace (q :: pre2) st =
                foldPlace pre2 (placeAttempts q (slotsNeeded q) st) := by
              simp [foldPlace, List.foldl_cons]
            rw [this, hq] at hpool
            exact hpool⟩
        exact ⟨nm, by unfold allocateSubjects; rw [if_neg hp]; exact hnm⟩

theorem allocateSubjects_no_capacity_error :
    ∀ (subjects : List Subject) (st : AllocState) (r a : Nat),
      allocateSubjects subjects st ≠ .error (.capacity r a) := by
  intro subjects
  induction subjects with
  | nil =>
    intro st r a h
    unfold allocateSubjects at h
    exact Except.noConfusion h
  | cons s0 rest ih =>
    intro st r a h
    unfold allocateSubjects at h
    by_cases hp : st.pool.length = 0
    · rw [if_pos hp] at h
      injection h with h
      exact AllocError.noConfusion h
    · rw [if_neg hp] at h
      exact ih _ r a h

/-! ### Relational semantics of the 5-slot variant -/

/-- Cells related pointwise: both empty, or holding `R`-related subjects. -/
def cellMatch (R : Subject → Subject → Prop) : Option Subject → Option Subject → Prop
  | none, none => True
  | some a, some b => R a b
  | _, _ => False

/-- Grids of identical shape whose cells are `cellMatch`-related. -/
def GridRel (R : Subject → Subject → Prop) (g1 g2 : Grid) : Prop :=
  g1.length = g2.length ∧ (∀ t, (g1.getD t []).length = (g2.getD t []).length) ∧
  ∀ t d, cellMatch R (gridGet g1 t d) (gridGet g2 t d)

/-- Allocation results related: same error, or same pool and related grids. -/
def ResultRel (R : Subject → Subject → Prop) :
    Except String JsState → Except String JsState → Prop
  | .ok st1, .ok st2 => st1.pool = st2.pool ∧ GridRel R st1.grid st2.grid
  | .error e1, .error e2 => e1 = e2
  | _, _ => False

/-- Subjects that agree on everything except possibly `credits`. -/
def SameExceptCredits (a b : Subject) : Prop :=
  a.id = b.id ∧ a.name = b.name ∧ a.professor = b.professor

theorem gridRel_jsEmpty (R : Subject → Subject → Prop) :
    GridRel R jsEmptyGrid jsEmptyGrid := by
  refine ⟨rfl, fun t => rfl, fun t d => ?_⟩
  rw [gridGet_jsEmptyGrid]
  trivial

theorem gridRel_gridSet {R : Subject → Subject → Prop} {g1 g2 : Grid}
    (h : GridRel R g1 g2) {a b : Subject} (hab : R a b) (t d : Nat) :
    GridRel R (gridSet g1 t d a) (gridSet g2 t d b) := by
  obtain ⟨hlen, hrows, hcells⟩ := h
  refine ⟨by simp [gridSet, hlen], fun t2 => ?_, fun t2 d2 => ?_⟩
  · by_cases htt : t2 = t
    · subst htt
      by_cases hl : t2 < g1.length
      · unfold gridSet
        rw [getD_set_self _ _ _ hl, getD_set_self _ _ _ (by omega)]
        rw [List.length_set, List.length_set]
        exact hrows t2
      · unfold gridSet
        rw [List.set_eq_of_length_le (Nat.le_of_not_lt hl),
          List.set_eq_of_length_le (by omega)]
        exact hrows t2
    · unfold gridSet
      rw [getD_set_ne _ _ _ (Ne.symm htt), getD_set_ne _ _ _ (Ne.symm htt)]
      exact hrows t2
  · by_cases hsame : t2 = t ∧ d2 = d
    · obtain ⟨rfl, rfl⟩ := hsame
      rw [gridGet_gridSet_same, gridGet_gridSet_same]
      by_cases hin : t2 < g1.length ∧ d2 < (g1.getD t2 []).length
      · rw [if_pos hin, if_pos (by rw [← hlen, ← hrows t2]; exact hin)]
        exact hab
      · rw [if_neg hin, if_neg (by rw [← hlen, ← hrows t2]; exact hin)]
        exact hcells t2 d2
    · have hne : t2 ≠ t ∨ d2 ≠ d := by tauto
      rw [gridGet_gridSet_ne _ _ hne, gridGet_gridSet_ne _ _ hne]
      exact hcells t2 d2

theorem jsAllocate_rel {R : Subject → Subject → Prop} :
    ∀ {s1 s2 : List Subject}, List.Forall₂ R s1 s2 →
    ∀ (st1 st2 : JsState), st1.pool = st2.pool → GridRel R st1.grid st2.grid →
    ResultRel R (jsAllocateSubjects s1 st1) (jsAllocateSubjects s2 st2) := by
  intro s1 s2 hF
  induction hF with
  | nil =>
    intro st1 st2 hp hg
    exact ⟨hp, hg⟩
  | @cons a b l1 l2 hab hrest ih =>
    intro st1 st2 hp hg
    obtain ⟨g1, pool1, o1⟩ := st1
    obtain ⟨g2, pool2, o2⟩ := st2
    simp only at hp hg
    subst hp
    unfold jsAllocateSubjects
    by_cases hlen : pool1.length < 2
    · rw [dif_pos hlen, dif_pos hlen]
      rfl
    · rw [dif_neg hlen, dif_neg hlen]
      apply ih
      · unfold jsSubjectPlace jsWriteCell
        by_cases hpt : (pool1.getLast (List.length_pos.mp (by omega))).time + 1 <
            jsTimeSlots.length
        · rw [if_pos hpt, if_pos hpt]
        · rw [if_neg hpt, if_neg hpt]
      · unfold jsSubjectPlace jsWriteCell
        by_cases hpt : (pool1.getLast (List.length_pos.mp (by omega))).time + 1 <
            jsTimeSlots.length
        · rw [if_pos hpt, if_pos hpt]
          exact gridRel_gridSet (gridRel_gridSet hg hab _ _) hab _ _
        · rw [if_neg hpt, if_neg hpt]
          exact gridRel_gridSet hg hab _ _

/-! ### Equation helpers for the attempt loop -/

theorem placeAttempts_zero (s : Subject) (st : AllocState) : placeAttempts s 0 st = st := rfl

theorem placeAttempts_succ (s : Subject) (n : Nat) (st : AllocState) :
    placeAttempts s (n + 1) st = placeAttempts s n (attemptStep s st) := rfl

/-- Decidable equality of allocation results (used to evaluate the
concrete witnesses and counterexamples). -/
instance instDecEqExcept {e a : Type} [DecidableEq e] [DecidableEq a] :
    DecidableEq (Except e a) := fun x y =>
  match x, y with
  | .ok v, .ok w => decidable_of_iff (v = w) (by simp)
  | .error v, .error w => decidable_of_iff (v = w) (by simp)
  | .ok _, .error _ => isFalse (fun h => Except.noConfusion h)
  | .error _, .ok _ => isFalse (fun h => Except.noConfusion h)

/-! ### Concrete inputs used in witnesses and counterexamples -/

/-- A 5-credit subject. -/
def csA : Subject := { id := 1, name := "Algebra", professor := "Prof Perez", credits := 5 }

/-- A 5-credit subject. -/
def csB : Subject := { id := 2, name := "Biologia", professor := "Prof Gomez", credits := 5 }

/-- A 5-credit subject. -/
def csC : Subject := { id := 3, name := "Calculo", professor := "Prof Ruiz", credits := 5 }

/-- A 5-credit subject. -/
def csD : Subject := { id := 4, name := "Derecho", professor := "Prof Soto", credits := 5 }

/-- Subject `csA` with its credits changed to 2 and nothing else. -/
def csA2 : Subject := { id := 1, name := "Algebra", professor := "Prof Perez", credits := 2 }

/-- A 2-credit subject. -/
def csB2 : Subject := { id := 2, name := "Biologia", professor := "Prof Gomez", credits := 2 }

/-- A 2-credit subject. -/
def csC2 : Subject := { id := 3, name := "Calculo", professor := "Prof Ruiz", credits := 2 }

/-- A 3-credit subject. -/
def csE3 : Subject := { id := 1, name := "Economia", professor := "Prof Vega", credits := 3 }

/-- A 3-credit subject. -/
def csF3 : Subject := { id := 2, name := "Fisica", professor := "Prof Lara", credits := 3 }

/-- A 1-credit subject. -/
def csG1 : Subject := { id := 1, name := "Geografia", professor := "Prof Mora", credits := 1 }

/-- A 1-credit subject. -/
def csH1 : Subject := { id := 2, name := "Historia", professor := "Prof Leon", credits := 1 }

/-- A 1-credit subject. -/
def csI1 : Subject := { id := 3, name := "Ingles", professor := "Prof Paz", credits := 1 }

/-- A shuffle of `availableSlots 6` under which subject `csD` (4th of 4)
finds the pool exhausted after a single placement attempt. -/
def pool4 : List Position :=
  [⟨0, 7⟩, ⟨1, 6⟩, ⟨2, 6⟩, ⟨3, 6⟩, ⟨4, 7⟩, ⟨4, 6⟩, ⟨0, 6⟩, ⟨1, 7⟩, ⟨2, 7⟩, ⟨3, 7⟩]

/-- A shuffle of `availableSlots 6` under which both placement attempts
of a single 5-credit subject find a free adjacent slot. -/
def pool5 : List Position :=
  [⟨0, 6⟩, ⟨1, 6⟩, ⟨0, 7⟩, ⟨1, 7⟩, ⟨2, 6⟩, ⟨2, 7⟩, ⟨3, 6⟩, ⟨3, 7⟩, ⟨4, 6⟩, ⟨4, 7⟩]

/-- A shuffle of `jsAvailablePositions 0` whose last two entries are
(day 0, time 1) then (day 0, time 0): the 5-slot variant pops them in
that order and the second block placement overwrites the first. -/
def poolJSx : List Position :=
  [⟨0, 2⟩, ⟨0, 3⟩, ⟨1, 0⟩, ⟨1, 1⟩, ⟨1, 2⟩, ⟨1, 3⟩, ⟨2, 0⟩, ⟨2, 1⟩, ⟨2, 2⟩, ⟨2, 3⟩,
   ⟨3, 0⟩, ⟨3, 1⟩, ⟨3, 2⟩, ⟨3, 3⟩, ⟨4, 0⟩, ⟨4, 1⟩, ⟨4, 2⟩, ⟨4, 3⟩, ⟨0, 0⟩, ⟨0, 1⟩]

/-! ### The claims -/

/-- C1 (amended): in the strict 9-slot variant (src/schedule.js) no
placement step ever overwrites a cell already assigned to a different
subject — for every subject list and every shuffle of the candidate
pool, the run's overwrite count is 0 whenever a grid is returned.  (The
claim's further assertion that this also holds for the 5-slot variant in
src/js/schedule.js is refuted by the counterexample: that variant writes
the adjacent cell without checking that it is still null.) -/
theorem noOverwrite_strict (subjects : List Subject) (startIndex : Nat)
    (pool : List Position) (hperm : pool.Perm (availableSlots startIndex)) :
    (createScheduleMatrix subjects pool).map (fun st => st.overwrites) =
      (createScheduleMatrix subjects pool).map (fun _ => 0) := by
  unfold createScheduleMatrix
  by_cases hcap : pool.length < subjects.length * 2
  · rw [if_pos hcap]
    rfl
  · rw [if_neg hcap]
    cases hres : allocateSubjects subjects
        { grid := emptyGrid, pool := pool, overwrites := 0, oob := 0, blocks := [] } with
    | error e => rfl
    | ok st2 =>
      have hspec := allocateSubjects_spec subjects _ st2
        (inv_init startIndex pool hperm) hres
      simp only [Except.map]
      rw [hspec.2.1]

/-- C1 witness: a concrete run of the strict variant with the unshuffled
pool, overwrite count 0. -/
theorem noOverwrite_strict_witness :
    (createScheduleMatrix [csE3, csF3] (availableSlots 6)).map (fun st => st.overwrites) =
      (createScheduleMatrix [csE3, csF3] (availableSlots 6)).map (fun _ => 0) :=
  noOverwrite_strict [csE3, csF3] 6 (availableSlots 6) (List.Perm.refl _)

/-- C1 counterexample: in the 5-slot variant a placement step overwrites
a cell already assigned to a different subject: with the shuffle
`poolJSx`, placing `csB` at (day 0, time 0) also writes (day 0, time 1),
which `csA` already occupies — one overwrite happens and `csA` is left
with a single cell of its two-cell block. -/
theorem jsOverwrite_counterexample :
    poolJSx.Perm (jsAvailablePositions 0) ∧
    (jsCreateScheduleMatrix [csA, csB] poolJSx).map (fun st => st.overwrites) =
      .ok 1 ∧
    (jsCreateScheduleMatrix [csA, csB] poolJSx).map (fun st => countCells st.grid csA) =
      .ok 1 := by
  refine ⟨by decide, by decide, by decide⟩

/-- C2 (amended): the strict variant fails with the global capacity error
— carrying required = 2 × subjects.length and available = pool size,
before any placement — exactly when the candidate positions are fewer
than 2 × subjects.length.  (The claim's threshold Σ slotsNeeded is not
the one the code uses; see the counterexample.) -/
theorem capacity_check_iff (subjects : List Subject) (pool : List Position) :
    createScheduleMatrix subjects pool =
      .error (.capacity (subjects.length * 2) pool.length) ↔
      pool.length < subjects.length * 2 := by
  unfold createScheduleMatrix
  by_cases h : pool.length < subjects.length * 2
  · rw [if_pos h]
    exact ⟨fun _ => h, fun _ => rfl⟩
  · rw [if_neg h]
    constructor
    · intro hcon
      exact absurd hcon (allocateSubjects_no_capacity_error _ _ _ _)
    · intro hcon
      exact absurd hcon h

/-- C2 counterexample: three 2-credit subjects with startIndex 7 have
Σ slotsNeeded = 3 ≤ 5 available positions, so by the claim the upfront
check should pass; the code nevertheless fails with the capacity error
because it compares against 2 × 3 = 6. -/
theorem capacity_spec_counterexample :
    requiredCapacity [csA2, csB2, csC2] ≤ (availableSlots 7).length ∧
    createScheduleMatrix [csA2, csB2, csC2] (availableSlots 7) =
      .error (.capacity 6 5) := by
  refine ⟨by decide, by decide⟩

/-- C3 (amended): whenever the strict allocator returns a grid, every
subject of the input occupies at least one cell.  (The claim's premise —
that available ≥ Σ slotsNeeded suffices for a grid to be returned — is
refuted by the counterexample.) -/
theorem coverage_of_ok (subjects : List Subject) (startIndex : Nat)
    (pool : List Position) (st2 : AllocState)
    (hperm : pool.Perm (availableSlots startIndex))
    (hok : createScheduleMatrix subjects pool = .ok st2) :
    ∀ s ∈ subjects, ∃ t d, t < timeSlots.length ∧ d < weekDays.length ∧
      gridGet st2.grid t d = some s := by
  unfold createScheduleMatrix at hok
  by_cases hcap : pool.length < subjects.length * 2
  · rw [if_pos hcap] at hok
    exact Except.noConfusion hok
  · rw [if_neg hcap] at hok
    exact allocateSubjects_covers subjects _ st2 (inv_init startIndex pool hperm) hok

/-- C3 witness: a concrete successful run in which the first subject
occupies a cell. -/
theorem coverage_of_ok_witness :
    ∃ st2, createScheduleMatrix [csE3, csF3] (availableSlots 6) = .ok st2 ∧
      ∃ t d, t < timeSlots.length ∧ d < weekDays.length ∧
        gridGet st2.grid t d = some csE3 := by
  cases hres : createScheduleMatrix [csE3, csF3] (availableSlots 6) with
  | error e =>
    have hok : (createScheduleMatrix [csE3, csF3] (availableSlots 6)).isOk = true := by
      decide
    rw [hres] at hok
    simp [Except.isOk, Except.toBool] at hok
  | ok st2 =>
    exact ⟨st2, rfl,
      coverage_of_ok [csE3, csF3] 6 (availableSlots 6) st2 (List.Perm.refl _) hres
        csE3 (List.mem_cons_self _ _)⟩

/-- C3 counterexample: a valid input (three 1-credit subjects, startIndex
7) whose 5 available candidate positions meet the required capacity
Σ slotsNeeded = 3, yet the allocator returns no grid at all — it throws
the upfront capacity error since 5 < 2 × 3. -/
theorem coverage_counterexample :
    requiredCapacity [csG1, csH1, csI1] ≤ (availableSlots 7).length ∧
    (createScheduleMatrix [csG1, csH1, csI1] (availableSlots 7)).isOk = false := by
  refine ⟨by decide, by decide⟩

/-- C4 (amended): the strict variant raises the per-subject capacity
error — carrying that subject's name — exactly when the pool is already
exhausted at the START of some subject's turn; if the pool empties in
the middle of a subject's attempts, after it has received at least one
placement, the remaining attempts are skipped silently with no error
(refuting the claim's "exactly when ... before that subject has received
its slotsNeeded placements", see the counterexample). -/
theorem perSubjectError_iff (subjects : List Subject) (st : AllocState) :
    (∀ nm, allocateSubjects subjects st = .error (.subjectCapacity nm) →
      ∃ pre s post, subjects = pre ++ s :: post ∧ nm = s.name ∧
        (foldPlace pre st).pool = []) ∧
    ((∃ pre s post, subjects = pre ++ s :: post ∧ (foldPlace pre st).pool = []) →
      ∃ nm, allocateSubjects subjects st = .error (.subjectCapacity nm)) :=
  ⟨fun nm => allocateSubjects_error_name subjects st nm,
   allocateSubjects_error_of_empty subjects st⟩

/-- C4 witness: on an empty pool the error fires for the first subject. -/
theorem perSubjectError_iff_witness :
    ∃ nm, allocateSubjects [csA]
        { grid := emptyGrid, pool := [], overwrites := 0, oob := 0, blocks := [] } =
      .error (.subjectCapacity nm) :=
  (perSubjectError_iff [csA]
      { grid := emptyGrid, pool := [], overwrites := 0, oob := 0, blocks := [] }).2
    ⟨[], csA, [], rfl, rfl⟩

/-- C4 counterexample: under the shuffle `pool4`, subject `csD` needs
slotsNeeded = 2 placements but the pool is exhausted after its first
attempt — it ends with a single cell — and the allocator returns a grid
with no error. -/
theorem silent_truncation_counterexample :
    pool4.Perm (availableSlots 6) ∧
    slotsNeeded csD = 2 ∧
    (createScheduleMatrix [csA, csB, csC, csD] pool4).map
      (fun st => countCells st.grid csD) = .ok 1 := by
  refine ⟨by decide, by decide, by decide⟩

/-- C5 (amended): for a single subject with credits = 5 and ample
capacity the strict allocator returns a grid in which the subject
occupies between 2 and 4 cells — not exactly 2, because each of the
slotsNeeded = 2 loop iterations may place a full 2-cell block (see the
counterexample) — and every pair of cells assigned as a consecutive
block lies on the same day at adjacent time indices, both holding the
subject. -/
theorem singleSubject_credits5 (s : Subject) (startIndex : Nat) (pool : List Position)
    (hc : s.credits = 5) (hperm : pool.Perm (availableSlots startIndex))
    (hample : 2 ≤ pool.length) :
    ∃ st2, createScheduleMatrix [s] pool = .ok st2 ∧
      2 ≤ countCells st2.grid s ∧ countCells st2.grid s ≤ 4 ∧
      ∀ pr ∈ st2.blocks, gridGet st2.grid pr.1.time pr.1.day = some pr.2 ∧
        gridGet st2.grid (pr.1.time + 1) pr.1.day = some pr.2 := by
  have hsn : slotsNeeded s = 2 := by rw [slotsNeeded, hc]; decide
  have hInv0 := inv_init startIndex pool hperm
  cases hpool : pool with
  | nil =>
    rw [hpool] at hample
    simp at hample
  | cons p rest =>
    subst hpool
    have h2 : slotsNeeded s = 0 + 1 + 1 := by rw [hsn]
    have hok : createScheduleMatrix [s] (p :: rest) = .ok (placeAttempts s (slotsNeeded s)
        { grid := emptyGrid, pool := p :: rest, overwrites := 0, oob := 0,
          blocks := [] }) := by
      unfold createScheduleMatrix
      rw [if_neg (by simp only [List.length_singleton]; omega)]
      simp only [allocateSubjects]
      rw [if_neg (by simp)]
    have hstF : placeAttempts s (slotsNeeded s)
        { grid := emptyGrid, pool := p :: rest, overwrites := 0, oob := 0,
          blocks := [] } =
        attemptStep s (attemptStep s
          { grid := emptyGrid, pool := p :: rest, overwrites := 0, oob := 0,
            blocks := [] }) := by
      rw [h2, placeAttempts_succ, placeAttempts_succ, placeAttempts_zero]
    rw [hstF] at hok
    obtain ⟨hpd, hplo, hpt, -⟩ := hInv0.2.1.2 p (List.mem_cons_self p rest)
    have hInv1 := (attemptStep_spec s _ hInv0).1
    have hInv2 := (attemptStep_spec s _ hInv1).1
    have hblockmem : (p, s) ∈ (attemptStep s
        { grid := emptyGrid, pool := p :: rest, overwrites := 0, oob := 0,
          blocks := [] }).blocks := by
      rw [attemptStep_of_cons s rfl, if_pos hpt, if_pos (gridGet_emptyGrid _ _)]
      simp [blockPlace, writeCell]
    have hmemF : (p, s) ∈ (attemptStep s (attemptStep s
        { grid := emptyGrid, pool := p :: rest, overwrites := 0, oob := 0,
          blocks := [] })).blocks :=
      (attemptStep_spec s _ hInv1).2.2.2.2.2 (p, s) hblockmem
    obtain ⟨hcell1, hcell2⟩ := hInv2.2.2 (p, s) hmemF
    refine ⟨_, hok, ?_, ?_, hInv2.2.2⟩
    · exact two_le_countCells_pair hcell1 hcell2 (Or.inl (by omega))
    · have ha := countCells_attemptStep_le s
        { grid := emptyGrid, pool := p :: rest, overwrites := 0, oob := 0,
          blocks := [] } s
      have hb := countCells_attemptStep_le s (attemptStep s
        { grid := emptyGrid, pool := p :: rest, overwrites := 0, oob := 0,
          blocks := [] }) s
      have hz : countCells (AllocState.mk emptyGrid (p :: rest) 0 0 []).grid s = 0 :=
        countCells_emptyGrid s
      omega

/-- C5 witness: the unshuffled pool at startIndex 6. -/
theorem singleSubject_credits5_witness :
    ∃ st2, createScheduleMatrix [csA] (availableSlots 6) = .ok st2 ∧
      2 ≤ countCells st2.grid csA ∧ countCells st2.grid csA ≤ 4 ∧
      ∀ pr ∈ st2.blocks, gridGet st2.grid pr.1.time pr.1.day = some pr.2 ∧
        gridGet st2.grid (pr.1.time + 1) pr.1.day = some pr.2 :=
  singleSubject_credits5 csA 6 (availableSlots 6) rfl (List.Perm.refl _) (by decide)

/-- C5 counterexample: a single 5-credit subject with ample capacity can
be assigned FOUR cells, not exactly two: under the shuffle `pool5` both
placement attempts find a free adjacent slot and each places a 2-cell
block. -/
theorem four_cells_counterexample :
    pool5.Perm (availableSlots 6) ∧
    (createScheduleMatrix [csA] pool5).map (fun st => countCells st.grid csA) =
      .ok 4 := by
  refine ⟨by decide, by decide⟩

/-- C6: the candidate position set built by both variants is exactly the
pairs (d, t) with d < WeekDay-count and startIndex ≤ t < TimeSlot-count
− 1; in particular the last time-slot index never appears as a candidate
starting position. -/
theorem candidate_set_exact (numDays numSlots startIndex : Nat)
    (hlt : startIndex < numSlots) (p : Position) :
    p ∈ candidatePositions numDays numSlots startIndex ↔
      p.day < numDays ∧ startIndex ≤ p.time ∧ p.time < numSlots - 1 := by
  rw [mem_candidatePositions]
  constructor
  · rintro ⟨h1, h2a, h3⟩
    exact ⟨h1, h2a, by omega⟩
  · rintro ⟨h1, h2a, h3⟩
    exact ⟨h1, h2a, by omega⟩

/-- C6 witness: instantiated at the strict variant's dimensions. -/
theorem candidate_set_exact_witness :
    (⟨3, 4⟩ : Position) ∈ candidatePositions 5 9 2 ↔
      (⟨3, 4⟩ : Position).day < 5 ∧ 2 ≤ (⟨3, 4⟩ : Position).time ∧
        (⟨3, 4⟩ : Position).time < 9 - 1 :=
  candidate_set_exact 5 9 2 (by omega) ⟨3, 4⟩

/-- C7: slots before the start index are never used — in every grid the
strict allocator returns, every cell whose time index is below
startIndex is null. -/
theorem cells_before_start_null (subjects : List Subject) (startIndex : Nat)
    (pool : List Position) (t d : Nat)
    (hperm : pool.Perm (availableSlots startIndex)) (ht : t < startIndex) :
    cellOf (createScheduleMatrix subjects pool) t d =
      (createScheduleMatrix subjects pool).map (fun _ => none) := by
  unfold cellOf createScheduleMatrix
  by_cases hcap : pool.length < subjects.length * 2
  · rw [if_pos hcap]
    rfl
  · rw [if_neg hcap]
    cases hres : allocateSubjects subjects
        { grid := emptyGrid, pool := pool, overwrites := 0, oob := 0, blocks := [] } with
    | error e => rfl
    | ok st2 =>
      have hspec := allocateSubjects_spec subjects _ st2
        (inv_init startIndex pool hperm) hres
      simp only [Except.map]
      rw [hspec.2.2.2.2 t d ht]
      simp only [gridGet_emptyGrid]

/-- C7 witness: startIndex 3, cell (1, 2) of a concrete run. -/
theorem cells_before_start_null_witness :
    cellOf (createScheduleMatrix [csE3, csF3] (availableSlots 3)) 1 2 =
      (createScheduleMatrix [csE3, csF3] (availableSlots 3)).map (fun _ => none) :=
  cells_before_start_null [csE3, csF3] 3 (availableSlots 3) 1 2
    (List.Perm.refl _) (by omega)

/-- C8: input non-mutation — after `createScheduleMatrix` returns or
throws, the manager's `subjects` sequence (same length, order and field
values) and its TimeSlot and WeekDay label sequences are unchanged; the
method as embedded only updates `currentScheduleData`. -/
theorem allocator_no_input_mutation (m : ManagerState) (pool : List Position) :
    (managerCreateScheduleMatrix m pool).2.subjects = m.subjects ∧
    (managerCreateScheduleMatrix m pool).2.timeSlotLabels = m.timeSlotLabels ∧
    (managerCreateScheduleMatrix m pool).2.weekDayLabels = m.weekDayLabels := by
  unfold managerCreateScheduleMatrix
  split
  · exact ⟨rfl, rfl, rfl⟩
  · exact ⟨rfl, rfl, rfl⟩

/-- C9: index safety — for a valid start index and any shuffle of the
candidate pool, every grid read and write performed by the strict
variant is within the timeSlots × weekDays rectangle: the run's
out-of-bounds access count is 0 whenever a grid is returned (in
particular the guard time + 1 < timeSlots.length keeps the adjacent-slot
access in bounds). -/
theorem allocator_in_bounds (subjects : List Subject) (startIndex : Nat)
    (pool : List Position) (hsi : startIndex < timeSlots.length)
    (hperm : pool.Perm (availableSlots startIndex)) :
    (createScheduleMatrix subjects pool).map (fun st => st.oob) =
      (createScheduleMatrix subjects pool).map (fun _ => 0) := by
  unfold createScheduleMatrix
  by_cases hcap : pool.length < subjects.length * 2
  · rw [if_pos hcap]
    rfl
  · rw [if_neg hcap]
    cases hres : allocateSubjects subjects
        { grid := emptyGrid, pool := pool, overwrites := 0, oob := 0, blocks := [] } with
    | error e => rfl
    | ok st2 =>
      have hspec := allocateSubjects_spec subjects _ st2
        (inv_init startIndex pool hperm) hres
      simp only [Except.map]
      rw [hspec.2.2.1]

/-- C9 witness: a concrete run at startIndex 6. -/
theorem allocator_in_bounds_witness :
    (createScheduleMatrix [csE3, csF3] (availableSlots 6)).map (fun st => st.oob) =
      (createScheduleMatrix [csE3, csF3] (availableSlots 6)).map (fun _ => 0) :=
  allocator_in_bounds [csE3, csF3] 6 (availableSlots 6) (by decide) (List.Perm.refl _)

/-- C10: the 5-slot variant ignores credits — it pops exactly one
candidate position per subject — so on the same shuffled pool, two
subject lists that agree pointwise on everything except credits yield
related results: the same error, or grids with the same pool consumption
and cellwise-corresponding occupancy. -/
theorem js_credits_irrelevant (s1 s2 : List Subject) (pool : List Position)
    (h : List.Forall₂ SameExceptCredits s1 s2) :
    ResultRel SameExceptCredits (jsCreateScheduleMatrix s1 pool)
      (jsCreateScheduleMatrix s2 pool) := by
  unfold jsCreateScheduleMatrix
  exact jsAllocate_rel h _ _ rfl (gridRel_jsEmpty _)

/-- C10 witness: the same two subjects with credits 2 versus 5. -/
theorem js_credits_irrelevant_witness :
    ResultRel SameExceptCredits
      (jsCreateScheduleMatrix [csA2, csB2] (jsAvailablePositions 0))
      (jsCreateScheduleMatrix [csA, csB] (jsAvailablePositions 0)) :=
  js_credits_irrelevant [csA2, csB2] [csA, csB] (jsAvailablePositions 0)
    (List.Forall₂.cons ⟨rfl, rfl, rfl⟩
      (List.Forall₂.cons ⟨rfl, rfl, rfl⟩ List.Forall₂.nil))

end Sched
